import Mathlib

/-!
Verification of `react-deep-state` (filipomar/react-deep-state).

Shallow embedding of the core of the library:

* `src/ExtendedStateManager/ExtendedStateManager.ts` — the state container
  (`ExtendedStateManager`): shallow-merge `setState`, `getState`, `subscribe`
  with per-listener remembered snapshots, and the polymorphic equivalence
  rule evaluation `areResultsEqual`.
* `src/react/ExtendedState.tsx` — the consumer-side synchronizer
  (`useExtendedState`, `useExtendedStateDispatcher`, `getManager`) modelled
  against the React lifecycle contract described by the library (layout
  effects run once per mount, in source order, after the first render).

Modelling conventions:

* A `StateValue` is a total map `K → V` (field name to field value); a
  `Partial<S>` is `K → Option V` (fields absent from the partial are `none`).
  The JS spread `{...s, ...p}` is `mergeState`.
* Subscriber callbacks are opaque; invoking one is observed by recording its
  numeric id in the `fired` list, in invocation order.
* JS closures stored in the `subscribers : Set` are distinct objects; each
  subscription therefore gets a fresh id from a counter, and `Set.delete`
  removes exactly the entries carrying that id.
* A rule (`Filter`) may throw: its codomain is `Except ε (FilterResult H)`.
  `FilterResult` distinguishes a boolean result (binary-comparator shape)
  from a non-boolean hash value (`string | number | null | undefined`),
  mirroring the `typeof result === 'boolean'` test in `areResultsEqual`.
  The JS `===` between two results is decidable equality on `FilterResult H`
  (a hash value is never `===` a boolean).
* Rule evaluations are instrumented with a trace of the argument pairs each
  call received; the trace is ghost data threaded beside the source's
  control flow, used to state call-count and argument-order properties.
-/

namespace ReactDeepState

/-- Result of one call of a `Filter<S>`: either a boolean (binary-comparator
shape) or a non-boolean hash value (`string | number | null | undefined`). -/
inductive FilterResult (H : Type) where
  | bool (b : Bool)
  | hash (v : H)
  deriving DecidableEq, Repr

/-- An equivalence rule (`Filter<S>` in the source): a two-argument JS
function that may throw (`Except ε`) and returns either a boolean or a hash
value. A hash extractor is a filter that ignores its second argument and
never returns a boolean. -/
def Filter (σ ε H : Type) : Type := σ → σ → Except ε (FilterResult H)

/-- Source `areResultsEqual` (ExtendedStateManager.ts lines 26-40), instrumented
with the list of argument pairs passed to the filter:

```
const result = filter(previous, current);
if (typeof result === 'boolean') return result;
return result === filter(current, previous);
```

A thrown exception propagates (`Except.error`). -/
def areResultsEqualTr {σ ε H : Type} [DecidableEq H] (previous current : σ)
    (filter : Filter σ ε H) : Except ε Bool × List (σ × σ) :=
  match filter previous current with
  | .error e => (.error e, [(previous, current)])
  | .ok (.bool b) => (.ok b, [(previous, current)])
  | .ok (.hash v) =>
    match filter current previous with
    | .error e => (.error e, [(previous, current), (current, previous)])
    | .ok r => (.ok (decide (FilterResult.hash v = r)),
                [(previous, current), (current, previous)])

/-- Source `areResultsEqual` proper: the boolean (or exception) it returns. -/
def areResultsEqual {σ ε H : Type} [DecidableEq H] (previous current : σ)
    (filter : Filter σ ε H) : Except ε Bool :=
  (areResultsEqualTr previous current filter).1

/-- The default filter substituted when `subscribe` is called with a single
argument: `() => false` — always reports "not equal". -/
def defaultFilter (σ ε H : Type) : Filter σ ε H :=
  fun _ _ => .ok (.bool false)

/-- The JS spread `{...s, ...p}`: every field named in `p` takes `p`'s
value, every other field keeps `s`'s value. -/
def mergeState {K V : Type} (s : K → V) (p : K → Option V) : K → V :=
  fun k => match p k with
    | some v => v
    | none => s k

/-- One element of the container's `subscribers` set, as created by
`subscribe`: the closure's identity (`id`), the filter it closes over, its
remembered `previous` snapshot (a mutable closure variable in the source),
and the opaque subscriber callback it wraps (observed by id). -/
structure Entry (K V ε H : Type) where
  id : Nat
  filter : Filter (K → V) ε H
  previous : K → V
  callback : Nat

/-- The `ExtendedStateManager<S>`: the current state, the subscriber set in
insertion order, and the counter handing out closure identities. -/
structure Manager (K V ε H : Type) where
  state : K → V
  subs : List (Entry K V ε H)
  nextId : Nat

/-- Source `getState()`: the current snapshot, by reference. -/
def getState {K V ε H : Type} (m : Manager K V ε H) : K → V :=
  m.state

/-- Source `subscribe(filter, subscriber)` (lines 76-90): remember
`previous = this.getState()` at subscribe time and add the wrapped closure
to the subscriber set; returns the new manager and the id the unsubscribe
handle closes over. -/
def subscribe {K V ε H : Type} (m : Manager K V ε H)
    (filter : Filter (K → V) ε H) (callback : Nat) :
    Manager K V ε H × Nat :=
  (⟨m.state, m.subs ++ [⟨m.nextId, filter, m.state, callback⟩], m.nextId + 1⟩,
   m.nextId)

/-- Source `subscribe(subscriber)` with no filter: the default filter
`() => false` is used. -/
def subscribeNoFilter {K V ε H : Type} (m : Manager K V ε H)
    (callback : Nat) : Manager K V ε H × Nat :=
  subscribe m (defaultFilter (K → V) ε H) callback

/-- The unsubscribe handle returned by `addSubscriber` (lines 49-54):
`this.subscribers.delete(subscriber)` for the one closure identified by
`i`. -/
def unsubscribe {K V ε H : Type} (m : Manager K V ε H) (i : Nat) :
    Manager K V ε H :=
  ⟨m.state, m.subs.filter (fun e => e.id ≠ i), m.nextId⟩

/-- The effect of `previous = current` at the end of one subscriber
closure run: the same entry with its remembered snapshot replaced. -/
def withSnapshot {K V ε H : Type} (e : Entry K V ε H) (s : K → V) :
    Entry K V ε H :=
  ⟨e.id, e.filter, s, e.callback⟩

/-- One run of the closure built in `subscribe` (lines 81-89), at
notification time with post-merge state `current`:

```
const current = this.getState();
if (!areResultsEqual(previous, current, filter)) subscriber();
previous = current;
```

On success: the entry with its snapshot set to `current`, the callback id
if it fired, and the filter-call trace. If the rule throws, nothing of the
closure's tail runs: the snapshot stays as it was. -/
def runEntry {K V ε H : Type} [DecidableEq H] (current : K → V)
    (e : Entry K V ε H) :
    Except ε (Entry K V ε H × Option Nat × List ((K → V) × (K → V))) :=
  match areResultsEqualTr e.previous current e.filter with
  | (.error err, _) => .error err
  | (.ok eq, tr) =>
    .ok (withSnapshot e current, if eq then none else some e.callback, tr)

/-- Whether the closure run fires the subscriber: the rule evaluated on
(remembered snapshot, post-merge state) returned the boolean "not equal"
(a thrown rule never reaches the `subscriber()` call). -/
def fires {K V ε H : Type} [DecidableEq H] (current : K → V)
    (e : Entry K V ε H) : Bool :=
  match areResultsEqual e.previous current e.filter with
  | .ok b => !b
  | .error _ => false

/-- Source `this.subscribers.forEach((l) => l())`: run every subscriber closure in
insertion order; a thrown exception aborts the iteration, leaving later
entries untouched and unnotified. Returns the updated entries, the fired
callback ids in order, the concatenated filter-call traces, and the
exception if one was thrown. -/
def notify {K V ε H : Type} [DecidableEq H] (current : K → V) :
    List (Entry K V ε H) →
    List (Entry K V ε H) × List Nat × List ((K → V) × (K → V)) × Option ε
  | [] => ([], [], [], none)
  | e :: rest =>
    match runEntry current e with
    | .error err => (e :: rest, [], [], some err)
    | .ok (e', fired?, tr) =>
      let r := notify current rest
      (e' :: r.1, fired?.toList ++ r.2.1, tr ++ r.2.2.1, r.2.2.2)

/-- Everything observable about one `setState` call: the container
afterwards, the callbacks invoked (in order), the filter-call traces, and
the exception that escaped `setState`, if any. -/
structure SetStateOutcome (K V ε H : Type) where
  mgr : Manager K V ε H
  fired : List Nat
  traces : List ((K → V) × (K → V))
  thrown : Option ε

/-- Source `setState(state)` (lines 60-63): replace the state with the shallow
merge, then notify every subscriber synchronously. The merge happens before
any notification, so it survives even when a rule throws. -/
def setState {K V ε H : Type} [DecidableEq H] (m : Manager K V ε H)
    (p : K → Option V) : SetStateOutcome K V ε H :=
  let current := mergeState m.state p
  let r := notify current m.subs
  ⟨⟨current, r.1, m.nextId⟩, r.2.1, r.2.2.1, r.2.2.2⟩

/-! ### Consumer-side synchronizer (`src/react/ExtendedState.tsx`) -/

/-- The change gate `useExtendedState` passes to `manager.subscribe`
(ExtendedState.tsx lines 132-143), instrumented with the trace of calls
made to the caller-supplied filter (the argument pairs it received):

```
(previousState, currentState) => {
  const previous = selector(previousState);
  const current = selector(currentState);
  if (previous === current) return true;
  return Boolean(filter && areResultsEqual(current, previous, filter));
}
```

Decidable equality on `R` stands for the JS `===` on derived values (for
object-valued selectors, instantiate `R` with object identities). -/
def hookGateTr {σ R ε H : Type} [DecidableEq R] [DecidableEq H]
    (selector : σ → R) (filter : Option (Filter R ε H))
    (previousState currentState : σ) : Except ε Bool × List (R × R) :=
  let previous := selector previousState
  let current := selector currentState
  if previous = current then (.ok true, [])
  else
    match filter with
    | none => (.ok false, [])
    | some f => areResultsEqualTr current previous f

/-- A derived value as handed to the React state setter: a plain value or a
function (identified opaquely by id, never applied by the model). -/
inductive RVal (V : Type) where
  | plain (v : V)
  | fn (id : Nat)
  deriving DecidableEq, Repr

/-- The argument `useState`'s setter accepts: either the next value
directly, or a functional updater the runtime applies to the previous
value. -/
inductive SetResultArg (V : Type) where
  | value (v : RVal V)
  | updater (f : RVal V → RVal V)

/-- React's functional-update semantics for `setResult`: a function
argument is invoked on the previous state to produce the next value; any
other argument is the next value itself. -/
def applySetResult {V : Type} (prev : RVal V) : SetResultArg V → RVal V
  | .value v => v
  | .updater f => f prev

/-- Source `updateValue`'s push step (ExtendedState.tsx lines 117-128):

```
setResult(typeof newValue === 'function' ? () => newValue : newValue);
```

A function value is wrapped in a constant closure so the setter cannot
mistake it for a functional updater. -/
def updateValuePayload {V : Type} (newValue : RVal V) : SetResultArg V :=
  match newValue with
  | .fn i => .updater (fun _ => .fn i)
  | .plain v => .value (.plain v)

/-! ### Mount-time synchronization (`useExtendedState` lifecycle)

`setState` replaces the container state with a fresh object on every call
(`this.state = {...this.state, ...state}`), so two snapshots of
`manager.getState()` are reference-equal exactly when no `setState`
happened between them. `VState` models object identity with a version
counter incremented by every mutation. -/

/-- A container state snapshot together with its object identity. -/
structure VState (K V : Type) where
  ver : Nat
  val : K → V

/-- One `setState` as seen by the mount model: shallow merge into a fresh
object. -/
def vSetState {K V : Type} (s : VState K V) (p : K → Option V) : VState K V :=
  ⟨s.ver + 1, mergeState s.val p⟩

/-- A burst of mutations applied in order. -/
def applyMuts {K V : Type} (s : VState K V) (ps : List (K → Option V)) :
    VState K V :=
  ps.foldl vSetState s

/-- What mounting one `useExtendedState` binding delivers. -/
structure MountOutcome (R : Type) where
  /-- The `useState` initializer's value: `selector(manager.getState())`
  at first render. -/
  initial : R
  /-- How many times the catch-up layout effect (lines 148-156) invoked
  `updateValue`. -/
  catchUps : Nat
  /-- The derived value held after the mount effects ran. -/
  displayed : R

/-- The mount-time behaviour of `useExtendedState` (ExtendedState.tsx lines
103-172) under the React lifecycle contract (the `useState` initializer
runs once at first render; layout effects run once after the first commit,
in source order). `s0` is the container state at first render, `gap` the
mutations the container undergoes between that render and the layout
effects running.

At first render: `firstRender.current = manager.getState()` and the
initial result is `selector(manager.getState())`. At effect time the
subscription is established (it snapshots the live state, so the gap
mutations themselves never reach it), then the catch-up effect compares
`firstRender.current !== manager.getState()` — reference inequality, i.e.
version inequality — and invokes `updateValue` once when they differ,
recomputing the selector on the live state. -/
def mountHook {K V R : Type} (selector : (K → V) → R) (s0 : VState K V)
    (gap : List (K → Option V)) : MountOutcome R :=
  let s1 := applyMuts s0 gap
  let initial := selector s0.val
  if s1.ver ≠ s0.ver then ⟨initial, 1, selector s1.val⟩
  else ⟨initial, 0, initial⟩

/-! ### Context access and the dispatcher -/

/-- The Unbound Access error: `new Error('Must be used with-in a
Provider')`, thrown via `throwCaptured`. -/
structure UnboundAccess where
  message : String
  deriving DecidableEq, Repr

/-- Source `getManager` (ExtendedState.tsx lines 70-78): read the nearest context
value; when no Provider is above the binding site the context holds the
default `null` and the Unbound Access error is thrown synchronously
(`throwCaptured` rethrows the very error it is given after adjusting its
recorded origin, `src/utils` `throwCaptured`). -/
def getManager {M : Type} (ctx : Option M) : Except UnboundAccess M :=
  match ctx with
  | some m => .ok m
  | none => .error ⟨"Must be used with-in a Provider"⟩

/-- The argument of the dispatch function returned by
`useExtendedStateDispatcher`: a partial state or a generator producing one
from the live state. -/
inductive DispatchArg (K V : Type) where
  | part (p : K → Option V)
  | generator (g : (K → V) → (K → Option V))

/-- The dispatch closure (ExtendedState.tsx lines 180-183): resolve a
generator against the live state, then `manager.setState`. -/
def dispatch {K V ε H : Type} [DecidableEq H] (m : Manager K V ε H)
    (arg : DispatchArg K V) : SetStateOutcome K V ε H :=
  let p := match arg with
    | .part p => p
    | .generator g => g m.state
  setState m p

/-- The read entry point of `useExtendedState`: acquire the manager from
context (raising Unbound Access when absent), then compute the initial
derived value from its live state. -/
def useExtendedStateRead {K V ε H R : Type} (ctx : Option (Manager K V ε H))
    (selector : (K → V) → R) : Except UnboundAccess R :=
  (getManager ctx).map (fun m => selector (getState m))

/-- The entry point of `useExtendedStateDispatcher`: acquire the manager
from context (raising Unbound Access when absent), then return the
dispatch closure over that very manager. -/
def useExtendedStateDispatcherM {K V ε H : Type} [DecidableEq H]
    (ctx : Option (Manager K V ε H)) :
    Except UnboundAccess (DispatchArg K V → SetStateOutcome K V ε H) :=
  (getManager ctx).map (fun m => dispatch m)

/-! ### A spec-side variant of the gate, for comparison

The spec describes the binary-comparator shape of an EquivalenceRule as
`(previous, current) -> boolean`. `hookGateSpecTr` renders the
synchronizer's change gate with the caller's rule applied in that order;
it is compared against `hookGateTr`, which embeds the source
(`areResultsEqual(current, previous, filter)`). -/

/-- Modelled from the spec: the synchronizer's change gate with the
caller-supplied rule receiving `(previous, current)`, as §3's binary
comparator shape describes. Identical to `hookGateTr` except for the
argument order handed to `areResultsEqual`. -/
def hookGateSpecTr {σ R ε H : Type} [DecidableEq R] [DecidableEq H]
    (selector : σ → R) (filter : Option (Filter R ε H))
    (previousState currentState : σ) : Except ε Bool × List (R × R) :=
  let previous := selector previousState
  let current := selector currentState
  if previous = current then (.ok true, [])
  else
    match filter with
    | none => (.ok false, [])
    | some f => areResultsEqualTr previous current f

/-! ### Concrete instances used to evaluate the theorems -/

/-- An asymmetric binary comparator: "equal" exactly when its first
argument is `1`. A legal `Filter` value, since any
`(a, b) => boolean` JS function is. -/
def cmpFirstIsOne : Filter Nat Unit Nat :=
  fun a _ => .ok (.bool (decide (a = 1)))

/-- A hash extractor on numeric states: `(s) => s`, ignoring the second
argument and never returning a boolean. -/
def hashId : Filter Nat Unit Nat :=
  fun a _ => .ok (.hash a)

/-- A rule that always throws. -/
def throwingFilter : Filter (Nat → Nat) Unit Nat :=
  fun _ _ => .error ()

/-- A rule on function-states comparing the field at key `0`:
`(before, after) => before[0] === after[0]`. -/
def cmpAtZero : Filter (Nat → Nat) Unit Nat :=
  fun a b => .ok (.bool (decide (a 0 = b 0)))

/-- A hash extractor on function-states reading the field at key `0`. -/
def hashAtZero : Filter (Nat → Nat) Unit Nat :=
  fun a _ => .ok (.hash (a 0))

/-- A concrete constant state over numeric keys. -/
def constState (v : Nat) : Nat → Nat :=
  fun _ => v

/-- A concrete partial writing `v` at key `0` and leaving every other key
untouched. -/
def partAtZero (v : Nat) : Nat → Option Nat :=
  fun k => if k = 0 then some v else none

/-- A concrete manager used by the witnesses: state `constState 0`, one
subscriber with rule `cmpAtZero` and callback `7`, snapshot as of
subscribe time. -/
def mgrEx : Manager Nat Nat Unit Nat :=
  ⟨constState 0, [⟨0, cmpAtZero, constState 0, 7⟩], 1⟩

/-- A concrete manager with a hash-extractor subscriber. -/
def mgrHashEx : Manager Nat Nat Unit Nat :=
  ⟨constState 0, [⟨0, hashAtZero, constState 0, 7⟩], 1⟩

/-- A concrete manager with a well-behaved first subscriber, a throwing
second subscriber, and a never-reached third subscriber. -/
def mgrThrowEx : Manager Nat Nat Unit Nat :=
  ⟨constState 0,
   [⟨0, cmpAtZero, constState 0, 7⟩,
    ⟨1, throwingFilter, constState 0, 8⟩,
    ⟨2, cmpAtZero, constState 0, 9⟩], 3⟩

/-! ## Theorems -/

theorem applyMuts_ver {K V : Type} :
    ∀ (gap : List (K → Option V)) (s0 : VState K V),
      (applyMuts s0 gap).ver = s0.ver + gap.length := by
  intro gap
  induction gap with
  | nil => intro s0; rfl
  | cons p rest ih =>
    intro s0
    have h : applyMuts s0 (p :: rest) = applyMuts (vSetState s0 p) rest := rfl
    rw [h, ih (vSetState s0 p)]
    simp [vSetState]
    omega

theorem runEntry_of_ok {K V ε H : Type} [DecidableEq H] {cur : K → V}
    {e : Entry K V ε H} {b : Bool} {tr : List ((K → V) × (K → V))}
    (h : areResultsEqualTr e.previous cur e.filter = (.ok b, tr)) :
    runEntry cur e
      = .ok (withSnapshot e cur, if b then none else some e.callback, tr) := by
  simp [runEntry, h]

theorem runEntry_of_error {K V ε H : Type} [DecidableEq H] {cur : K → V}
    {e : Entry K V ε H} {err : ε} {tr : List ((K → V) × (K → V))}
    (h : areResultsEqualTr e.previous cur e.filter = (.error err, tr)) :
    runEntry cur e = .error err := by
  simp [runEntry, h]

theorem notify_of_ok {K V ε H : Type} [DecidableEq H] (cur : K → V) :
    ∀ es : List (Entry K V ε H),
      (∀ e ∈ es, ∃ b, areResultsEqual e.previous cur e.filter = .ok b) →
      notify cur es
        = (es.map (fun e => withSnapshot e cur),
           (es.filter (fun e => fires cur e)).map (fun e => e.callback),
           (es.map (fun e => (areResultsEqualTr e.previous cur e.filter).2)).flatten,
           none) := by
  intro es
  induction es with
  | nil => intro _; rfl
  | cons e rest ih =>
    intro h
    obtain ⟨b, hb⟩ := h e (List.mem_cons_self e rest)
    cases hTr : areResultsEqualTr e.previous cur e.filter with
    | mk r tr =>
      have hr : r = .ok b := by
        have hb' := hb
        unfold areResultsEqual at hb'
        rw [hTr] at hb'
        exact hb'
      subst hr
      have hrest := ih (fun e' he' => h e' (List.mem_cons_of_mem e he'))
      have hfe : fires cur e = !b := by simp [fires, hb]
      simp only [notify, runEntry_of_ok hTr, hrest, List.map_cons,
        List.filter_cons, hfe, List.flatten, hTr]
      cases b <;> simp

theorem setState_of_ok {K V ε H : Type} [DecidableEq H]
    (m : Manager K V ε H) (p : K → Option V)
    (hok : ∀ e ∈ m.subs,
      ∃ b, areResultsEqual e.previous (mergeState m.state p) e.filter = .ok b) :
    setState m p
      = ⟨⟨mergeState m.state p,
          m.subs.map (fun e => withSnapshot e (mergeState m.state p)),
          m.nextId⟩,
         (m.subs.filter (fun e => fires (mergeState m.state p) e)).map
           (fun e => e.callback),
         (m.subs.map (fun e =>
           (areResultsEqualTr e.previous (mergeState m.state p) e.filter).2)).flatten,
         none⟩ := by
  have h := notify_of_ok (mergeState m.state p) m.subs hok
  simp [setState, h]

theorem mem_fired_iff {K V ε H : Type} [DecidableEq H]
    (m : Manager K V ε H) (p : K → Option V)
    (hok : ∀ e ∈ m.subs,
      ∃ b, areResultsEqual e.previous (mergeState m.state p) e.filter = .ok b)
    (c : Nat) :
    c ∈ (setState m p).fired
      ↔ ∃ e ∈ m.subs,
          areResultsEqual e.previous (mergeState m.state p) e.filter = .ok false
          ∧ e.callback = c := by
  rw [setState_of_ok m p hok]
  simp only [List.mem_map, List.mem_filter]
  constructor
  · rintro ⟨e, ⟨he, hf⟩, rfl⟩
    obtain ⟨b, hb⟩ := hok e he
    have hfb : fires (mergeState m.state p) e = !b := by simp [fires, hb]
    rw [hfb] at hf
    have hb0 : b = false := by cases b with
      | false => rfl
      | true => exact absurd hf (by simp)
    subst hb0
    exact ⟨e, he, hb, rfl⟩
  · rintro ⟨e, he, hb, rfl⟩
    exact ⟨e, ⟨he, by simp [fires, hb]⟩, rfl⟩

/-- C3: `setState(p)` makes `getState()` the field-by-field shallow merge
of the previous state and `p`: every field named in `p` has `p`'s value,
and every field absent from `p` keeps its previous value. -/
theorem setState_is_shallow_merge {K V ε H : Type} [DecidableEq H]
    (m : Manager K V ε H) (p : K → Option V) :
    getState (setState m p).mgr = mergeState (getState m) p
    ∧ (∀ (k : K) (v : V), p k = some v → getState (setState m p).mgr k = v)
    ∧ (∀ k : K, p k = none → getState (setState m p).mgr k = getState m k) := by
  refine ⟨rfl, ?_, ?_⟩
  · intro k v hk
    show mergeState m.state p k = v
    simp [mergeState, hk]
  · intro k hk
    show mergeState m.state p k = getState m k
    simp [mergeState, hk, getState]

theorem setState_is_shallow_merge_witness :
    partAtZero 5 0 = some 5
    ∧ getState (setState mgrEx (partAtZero 5)).mgr 0 = 5
    ∧ partAtZero 5 1 = none
    ∧ getState (setState mgrEx (partAtZero 5)).mgr 1 = getState mgrEx 1 :=
  ⟨rfl,
   (setState_is_shallow_merge mgrEx (partAtZero 5)).2.1 0 5 rfl,
   rfl,
   (setState_is_shallow_merge mgrEx (partAtZero 5)).2.2 1 rfl⟩

/-- C5: the first derived value of a binding is the selector applied to
the container state at binding-creation time; the catch-up layout effect
re-derives exactly once when the container mutated in the gap before the
subscription became active, and not at all otherwise; afterwards the
displayed value is the selector on the live state. -/
theorem mount_initial_value_and_catchup {K V R : Type}
    (selector : (K → V) → R) (s0 : VState K V) (gap : List (K → Option V)) :
    (mountHook selector s0 gap).initial = selector s0.val
    ∧ (mountHook selector s0 gap).catchUps = (if gap.isEmpty then 0 else 1)
    ∧ (mountHook selector s0 gap).displayed = selector (applyMuts s0 gap).val := by
  cases gap with
  | nil =>
    refine ⟨?_, ?_, ?_⟩ <;> simp [mountHook, applyMuts]
  | cons p rest =>
    have hv : (applyMuts s0 (p :: rest)).ver = s0.ver + (p :: rest).length :=
      applyMuts_ver (p :: rest) s0
    have hne : (applyMuts s0 (p :: rest)).ver ≠ s0.ver := by
      rw [hv]; simp
    refine ⟨?_, ?_, ?_⟩ <;> simp [mountHook, hne]

/-- C7: the value handed to the runtime's state setter on a change
notification is the freshly selected value itself, even when that value is
a function: the wrapper keeps the runtime's functional-update semantics
from invoking it, so delivery is identity-preserving and never calls the
selected function. -/
theorem delivered_value_is_selected_value {V : Type} :
    (∀ prev newValue : RVal V,
      applySetResult prev (updateValuePayload newValue) = newValue)
    ∧ (∀ i : Nat,
      updateValuePayload (RVal.fn (V := V) i) = .updater (fun _ => .fn i)) := by
  constructor
  · intro prev newValue
    cases newValue <;> rfl
  · intro i
    rfl

/-- C9: a read or dispatch with no enclosing Provider raises the Unbound
Access error synchronously; with a Provider, the operations never raise
and act on the enclosing manager itself — no default container value is
ever substituted. -/
theorem unbound_access_error {K V ε H R : Type} [DecidableEq H] :
    (∀ (ctx : Option (Manager K V ε H)) (sel : (K → V) → R),
      ((∃ e, useExtendedStateRead ctx sel = .error e) ↔ ctx = none)
      ∧ ((∃ e, useExtendedStateDispatcherM ctx = .error e) ↔ ctx = none))
    ∧ (∀ (m : Manager K V ε H) (sel : (K → V) → R),
      useExtendedStateRead (some m) sel = .ok (sel (getState m))
      ∧ useExtendedStateDispatcherM (some m) = .ok (dispatch m))
    ∧ (∀ ctx : Option (Manager K V ε H), ctx = none →
      getManager ctx = .error ⟨"Must be used with-in a Provider"⟩) := by
  refine ⟨?_, ?_, ?_⟩
  · intro ctx sel
    cases ctx with
    | none =>
      constructor
      · constructor
        · intro _; rfl
        · intro _; exact ⟨⟨"Must be used with-in a Provider"⟩, rfl⟩
      · constructor
        · intro _; rfl
        · intro _; exact ⟨⟨"Must be used with-in a Provider"⟩, rfl⟩
    | some m =>
      constructor
      · constructor
        · rintro ⟨e, he⟩
          exact absurd he (by simp [useExtendedStateRead, getManager, Except.map])
        · intro h; exact absurd h (by simp)
      · constructor
        · rintro ⟨e, he⟩
          exact absurd he
            (by simp [useExtendedStateDispatcherM, getManager, Except.map])
        · intro h; exact absurd h (by simp)
  · intro m sel
    exact ⟨rfl, rfl⟩
  · intro ctx h
    subst h
    rfl

theorem unbound_access_error_witness :
    ((∃ e, useExtendedStateRead (ε := Unit) (H := Nat)
        (none : Option (Manager Nat Nat Unit Nat)) (fun s => s 0) = .error e)
      ↔ (none : Option (Manager Nat Nat Unit Nat)) = none)
    ∧ useExtendedStateRead (some mgrEx) (fun s => s 0)
        = .ok ((fun (s : Nat → Nat) => s 0) (getState mgrEx))
    ∧ getManager (none : Option (Manager Nat Nat Unit Nat))
        = .error ⟨"Must be used with-in a Provider"⟩ :=
  ⟨((unbound_access_error).1 none (fun s => s 0)).1,
   ((unbound_access_error).2.1 mgrEx (fun s => s 0)).1,
   (unbound_access_error (R := Nat)).2.2 none rfl⟩

/-- C10: calling the same unsubscribe handle a second time has no
observable effect: the manager — its state, listener set, and hence all
future notifications — is unchanged by the repeated call, and every other
listener keeps its membership. -/
theorem unsubscribe_idempotent {K V ε H : Type}
    (m : Manager K V ε H) (i : Nat) :
    unsubscribe (unsubscribe m i) i = unsubscribe m i
    ∧ (unsubscribe m i).state = m.state
    ∧ (∀ e ∈ m.subs, e.id ≠ i → e ∈ (unsubscribe m i).subs) := by
  refine ⟨?_, rfl, ?_⟩
  · show (⟨m.state, ((m.subs.filter (fun e => e.id ≠ i)).filter
        (fun e => e.id ≠ i)), m.nextId⟩ : Manager K V ε H)
      = ⟨m.state, m.subs.filter (fun e => e.id ≠ i), m.nextId⟩
    rw [List.filter_filter]
    simp
  · intro e he hne
    simp [unsubscribe, List.mem_filter]
    exact ⟨he, hne⟩

theorem unsubscribe_idempotent_witness :
    unsubscribe (unsubscribe mgrThrowEx 1) 1 = unsubscribe mgrThrowEx 1
    ∧ (⟨0, cmpAtZero, constState 0, 7⟩ : Entry Nat Nat Unit Nat)
        ∈ (unsubscribe mgrThrowEx 1).subs :=
  ⟨(unsubscribe_idempotent mgrThrowEx 1).1,
   (unsubscribe_idempotent mgrThrowEx 1).2.2
     ⟨0, cmpAtZero, constState 0, 7⟩ (by simp [mgrThrowEx]) (by decide)⟩

/-- C1: on a `setState` whose rule evaluations all return, a listener's
callback is invoked iff its rule, evaluated over (the listener's own
remembered pre-mutation snapshot, the post-merge state), reports "not
equal"; a listener subscribed without a rule is invoked on every
`setState`. -/
theorem listener_fires_iff_rule_reports_change {K V ε H : Type} [DecidableEq H]
    (m : Manager K V ε H) (p : K → Option V)
    (hok : ∀ e ∈ m.subs,
      ∃ b, areResultsEqual e.previous (mergeState m.state p) e.filter = .ok b) :
    ((setState m p).fired
      = (m.subs.filter (fun e => fires (mergeState m.state p) e)).map
          (fun e => e.callback))
    ∧ (∀ c, c ∈ (setState m p).fired
        ↔ ∃ e ∈ m.subs,
            areResultsEqual e.previous (mergeState m.state p) e.filter = .ok false
            ∧ e.callback = c)
    ∧ (∀ c, c ∈ (setState ((subscribeNoFilter m c).1) p).fired) := by
  refine ⟨?_, fun c => mem_fired_iff m p hok c, ?_⟩
  · rw [setState_of_ok m p hok]
  · intro c
    have hsubs : ((subscribeNoFilter m c).1).subs
        = m.subs ++ [⟨m.nextId, defaultFilter (K → V) ε H, m.state, c⟩] := rfl
    have hok' : ∀ e ∈ ((subscribeNoFilter m c).1).subs,
        ∃ b, areResultsEqual e.previous
          (mergeState ((subscribeNoFilter m c).1).state p) e.filter = .ok b := by
      intro e he
      rw [hsubs] at he
      rcases List.mem_append.mp he with h1 | h2
      · exact hok e h1
      · rw [List.mem_singleton] at h2
        subst h2
        exact ⟨false, rfl⟩
    rw [mem_fired_iff _ p hok' c]
    refine ⟨⟨m.nextId, defaultFilter (K → V) ε H, m.state, c⟩, ?_, rfl, rfl⟩
    rw [hsubs]
    exact List.mem_append_right _ (List.mem_singleton.mpr rfl)

theorem listener_fires_iff_rule_reports_change_witness :
    (7 ∈ (setState mgrEx (partAtZero 1)).fired
      ↔ ∃ e ∈ mgrEx.subs,
          areResultsEqual e.previous
            (mergeState mgrEx.state (partAtZero 1)) e.filter = .ok false
          ∧ e.callback = 7)
    ∧ 42 ∈ (setState ((subscribeNoFilter mgrEx 42).1) (partAtZero 1)).fired := by
  have hok : ∀ e ∈ mgrEx.subs,
      ∃ b, areResultsEqual e.previous
        (mergeState mgrEx.state (partAtZero 1)) e.filter = .ok b := by
    intro e he
    rw [show mgrEx.subs = [⟨0, cmpAtZero, constState 0, 7⟩] from rfl,
      List.mem_singleton] at he
    subst he
    exact ⟨false, rfl⟩
  exact ⟨(listener_fires_iff_rule_reports_change mgrEx (partAtZero 1) hok).2.1 7,
    (listener_fires_iff_rule_reports_change mgrEx (partAtZero 1) hok).2.2 42⟩

/-- C2: after a rule evaluation the listener's snapshot becomes the
post-merge state whether or not the callback fired; the snapshot is
initialized to the container state at subscribe time; hence when M1 is
deemed unchanged over the listener's window but M2 changes relative to the
state after M1, the listener fires for M2. -/
theorem snapshot_window_per_listener {K V ε H : Type} [DecidableEq H] :
    (∀ (m : Manager K V ε H) (p : K → Option V),
      (∀ e ∈ m.subs,
        ∃ b, areResultsEqual e.previous (mergeState m.state p) e.filter = .ok b) →
      (setState m p).mgr.subs
        = m.subs.map (fun e => withSnapshot e (mergeState m.state p)))
    ∧ (∀ (m : Manager K V ε H) (f : Filter (K → V) ε H) (c : Nat),
      ((subscribe m f c).1).subs = m.subs ++ [⟨m.nextId, f, m.state, c⟩])
    ∧ (∀ (m : Manager K V ε H) (p1 p2 : K → Option V) (e : Entry K V ε H),
      e ∈ m.subs →
      (∀ e' ∈ m.subs,
        ∃ b, areResultsEqual e'.previous (mergeState m.state p1) e'.filter = .ok b) →
      (∀ e' ∈ m.subs,
        ∃ b, areResultsEqual (mergeState m.state p1)
          (mergeState (mergeState m.state p1) p2) e'.filter = .ok b) →
      areResultsEqual e.previous (mergeState m.state p1) e.filter = .ok true →
      areResultsEqual (mergeState m.state p1)
        (mergeState (mergeState m.state p1) p2) e.filter = .ok false →
      e.callback ∈ (setState (setState m p1).mgr p2).fired) := by
  refine ⟨?_, ?_, ?_⟩
  · intro m p hok
    rw [setState_of_ok m p hok]
  · intro m f c
    rfl
  · intro m p1 p2 e he hok1 hok2 _ he2
    have hm1subs : (setState m p1).mgr.subs
        = m.subs.map (fun e' => withSnapshot e' (mergeState m.state p1)) := by
      rw [setState_of_ok m p1 hok1]
    have hm1state : (setState m p1).mgr.state = mergeState m.state p1 := rfl
    have hok2' : ∀ e' ∈ (setState m p1).mgr.subs,
        ∃ b, areResultsEqual e'.previous
          (mergeState ((setState m p1).mgr.state) p2) e'.filter = .ok b := by
      intro e' he'
      rw [hm1subs] at he'
      obtain ⟨e0, he0, rfl⟩ := List.mem_map.mp he'
      exact hok2 e0 he0
    rw [mem_fired_iff _ p2 hok2' e.callback]
    refine ⟨withSnapshot e (mergeState m.state p1), ?_, ?_, rfl⟩
    · rw [hm1subs]
      exact List.mem_map.mpr ⟨e, he, rfl⟩
    · exact he2

theorem snapshot_window_per_listener_witness :
    7 ∈ (setState (setState mgrEx (partAtZero 0)).mgr (partAtZero 3)).fired := by
  have hmem : (⟨0, cmpAtZero, constState 0, 7⟩ : Entry Nat Nat Unit Nat)
      ∈ mgrEx.subs := by
    rw [show mgrEx.subs = [⟨0, cmpAtZero, constState 0, 7⟩] from rfl]
    exact List.mem_singleton.mpr rfl
  have hok1 : ∀ e' ∈ mgrEx.subs,
      ∃ b, areResultsEqual e'.previous
        (mergeState mgrEx.state (partAtZero 0)) e'.filter = .ok b := by
    intro e' he'
    rw [show mgrEx.subs = [⟨0, cmpAtZero, constState 0, 7⟩] from rfl,
      List.mem_singleton] at he'
    subst he'
    exact ⟨true, rfl⟩
  have hok2 : ∀ e' ∈ mgrEx.subs,
      ∃ b, areResultsEqual (mergeState mgrEx.state (partAtZero 0))
        (mergeState (mergeState mgrEx.state (partAtZero 0)) (partAtZero 3))
        e'.filter = .ok b := by
    intro e' he'
    rw [show mgrEx.subs = [⟨0, cmpAtZero, constState 0, 7⟩] from rfl,
      List.mem_singleton] at he'
    subst he'
    exact ⟨false, rfl⟩
  exact (snapshot_window_per_listener).2.2 mgrEx (partAtZero 0) (partAtZero 3)
    ⟨0, cmpAtZero, constState 0, 7⟩ hmem hok1 hok2 rfl rfl

theorem notify_traces_length {K V ε H : Type} [DecidableEq H] (cur : K → V) :
    ∀ es : List (Entry K V ε H),
      (∀ e ∈ es, ∀ a b, ∃ v, e.filter a b = .ok (.hash v)) →
      (notify cur es).2.2.1.length = 2 * es.length := by
  intro es
  induction es with
  | nil => intro _; rfl
  | cons e rest ih =>
    intro h
    obtain ⟨v, hv⟩ := h e (List.mem_cons_self e rest) e.previous cur
    obtain ⟨w, hw⟩ := h e (List.mem_cons_self e rest) cur e.previous
    have hTr : areResultsEqualTr e.previous cur e.filter
        = (.ok (decide (FilterResult.hash v = FilterResult.hash w)),
           [(e.previous, cur), (cur, e.previous)]) := by
      simp only [areResultsEqualTr, hv, hw]
    have hrest := ih (fun e' he' => h e' (List.mem_cons_of_mem e he'))
    simp only [notify, runEntry_of_ok hTr, List.length_cons, List.length_append]
    simp [hrest]
    omega

/-- C4: a hash/key-extractor rule (one whose result is never a boolean)
deems two values equal iff the extractor applied in both directions yields
the same result, and each evaluation calls the rule exactly twice — first
on `(previous, current)`, then on `(current, previous)` — so a `setState`
performs two rule calls per such listener regardless of whether the hash
changed. -/
theorem hash_rule_bidirectional_and_called_twice {σ K V ε H : Type}
    [DecidableEq H] :
    (∀ (f : Filter σ ε H) (prev cur : σ),
      (∀ a b, ∃ v, f a b = .ok (.hash v)) →
      (areResultsEqual prev cur f = .ok true ↔ f prev cur = f cur prev)
      ∧ (areResultsEqualTr prev cur f).2 = [(prev, cur), (cur, prev)])
    ∧ (∀ (m : Manager K V ε H) (p : K → Option V),
      (∀ e ∈ m.subs, ∀ a b, ∃ v, e.filter a b = .ok (.hash v)) →
      (setState m p).traces.length = 2 * m.subs.length) := by
  constructor
  · intro f prev cur hf
    obtain ⟨v, hv⟩ := hf prev cur
    obtain ⟨w, hw⟩ := hf cur prev
    constructor
    · simp only [areResultsEqual, areResultsEqualTr, hv, hw]
      simp
    · simp only [areResultsEqualTr, hv, hw]
  · intro m p hall
    exact notify_traces_length (mergeState m.state p) m.subs hall

theorem hash_rule_bidirectional_and_called_twice_witness :
    (areResultsEqual 0 0 hashId = .ok true ↔ hashId 0 0 = hashId 0 0)
    ∧ (areResultsEqualTr 3 4 hashId).2 = [(3, 4), (4, 3)]
    ∧ (setState mgrHashEx (partAtZero 2)).traces.length
        = 2 * mgrHashEx.subs.length := by
  have hf : ∀ a b : Nat, ∃ v, hashId a b = .ok (.hash v) := fun a _ => ⟨a, rfl⟩
  have hall : ∀ e ∈ mgrHashEx.subs,
      ∀ a b : Nat → Nat, ∃ v, e.filter a b = .ok (.hash v) := by
    intro e he
    rw [show mgrHashEx.subs = [⟨0, hashAtZero, constState 0, 7⟩] from rfl,
      List.mem_singleton] at he
    subst he
    exact fun a _ => ⟨a 0, rfl⟩
  exact ⟨((@hash_rule_bidirectional_and_called_twice Nat Nat Nat Unit Nat
      _).1 hashId 0 0 hf).1,
    ((@hash_rule_bidirectional_and_called_twice Nat Nat Nat Unit Nat
      _).1 hashId 3 4 hf).2,
    ((@hash_rule_bidirectional_and_called_twice Nat Nat Nat Unit Nat
      _).2 mgrHashEx (partAtZero 2) hall)⟩

theorem notify_of_error {K V ε H : Type} [DecidableEq H] (cur : K → V) :
    ∀ (pre : List (Entry K V ε H)) (bad : Entry K V ε H)
      (post : List (Entry K V ε H)) (err : ε),
      (∀ e ∈ pre, ∃ b, areResultsEqual e.previous cur e.filter = .ok b) →
      areResultsEqual bad.previous cur bad.filter = .error err →
      notify cur (pre ++ bad :: post)
        = (pre.map (fun e => withSnapshot e cur) ++ bad :: post,
           (pre.filter (fun e => fires cur e)).map (fun e => e.callback),
           (pre.map (fun e =>
             (areResultsEqualTr e.previous cur e.filter).2)).flatten,
           some err) := by
  intro pre
  induction pre with
  | nil =>
    intro bad post err _ hbad
    cases hTr : areResultsEqualTr bad.previous cur bad.filter with
    | mk r tr =>
      have hr : r = .error err := by
        have h' := hbad
        unfold areResultsEqual at h'
        rw [hTr] at h'
        exact h'
      subst hr
      simp [notify, runEntry_of_error hTr]
  | cons e pre' ih =>
    intro bad post err hpre hbad
    obtain ⟨b, hb⟩ := hpre e (List.mem_cons_self e pre')
    cases hTr : areResultsEqualTr e.previous cur e.filter with
    | mk r tr =>
      have hr : r = .ok b := by
        have h' := hb
        unfold areResultsEqual at h'
        rw [hTr] at h'
        exact h'
      subst hr
      have hrest := ih bad post err
        (fun e' he' => hpre e' (List.mem_cons_of_mem e he')) hbad
      have hfe : fires cur e = !b := by simp [fires, hb]
      simp only [List.cons_append, notify, runEntry_of_ok hTr, hrest,
        List.map_cons, List.filter_cons, hfe, hTr]
      cases b <;> simp [hrest]

/-- C8: when a listener's rule throws during the notification phase of
`setState`, the exception propagates out of `setState`; listeners earlier
in subscription order have already fired (in order, synchronously, when
their rules reported change), listeners later in subscription order are
not notified and keep their snapshots, and the merge itself survives. -/
theorem throwing_rule_aborts_notification {K V ε H : Type} [DecidableEq H]
    (m : Manager K V ε H) (p : K → Option V)
    (pre post : List (Entry K V ε H)) (bad : Entry K V ε H) (err : ε)
    (hsubs : m.subs = pre ++ bad :: post)
    (hpre : ∀ e ∈ pre,
      ∃ b, areResultsEqual e.previous (mergeState m.state p) e.filter = .ok b)
    (hbad : areResultsEqual bad.previous (mergeState m.state p) bad.filter
      = .error err) :
    (setState m p).thrown = some err
    ∧ (setState m p).fired
      = (pre.filter (fun e => fires (mergeState m.state p) e)).map
          (fun e => e.callback)
    ∧ (setState m p).mgr.state = mergeState m.state p
    ∧ (setState m p).mgr.subs
      = pre.map (fun e => withSnapshot e (mergeState m.state p))
        ++ bad :: post := by
  have hn := notify_of_error (mergeState m.state p) pre bad post err hpre hbad
  refine ⟨?_, ?_, rfl, ?_⟩
  · show (notify (mergeState m.state p) m.subs).2.2.2 = some err
    rw [hsubs, hn]
  · show (notify (mergeState m.state p) m.subs).2.1 = _
    rw [hsubs, hn]
  · show (notify (mergeState m.state p) m.subs).1 = _
    rw [hsubs, hn]

theorem throwing_rule_aborts_notification_witness :
    (setState mgrThrowEx (partAtZero 4)).thrown = some ()
    ∧ (setState mgrThrowEx (partAtZero 4)).fired = [7]
    ∧ (setState mgrThrowEx (partAtZero 4)).mgr.state
        = mergeState mgrThrowEx.state (partAtZero 4) := by
  have hpre : ∀ e ∈ [(⟨0, cmpAtZero, constState 0, 7⟩ : Entry Nat Nat Unit Nat)],
      ∃ b, areResultsEqual e.previous
        (mergeState mgrThrowEx.state (partAtZero 4)) e.filter = .ok b := by
    intro e he
    rw [List.mem_singleton] at he
    subst he
    exact ⟨false, rfl⟩
  have h := throwing_rule_aborts_notification mgrThrowEx (partAtZero 4)
    [⟨0, cmpAtZero, constState 0, 7⟩] [⟨2, cmpAtZero, constState 0, 9⟩]
    ⟨1, throwingFilter, constState 0, 8⟩ () rfl hpre rfl
  refine ⟨h.1, ?_, h.2.2.1⟩
  rw [h.2.1]
  rfl

/-- C6 counterexample: at a concrete input with an asymmetric comparator,
the synchronizer's gate hands the caller's rule the arguments in the order
`(current, previous)` — the trace is `[(2, 1)]`, not the `[(1, 2)]` the
claim's `(previous, current)` order prescribes — and the gate's verdict
differs observably from the spec-order gate on the same input. -/
theorem hook_gate_argument_order_counterexample :
    (hookGateTr (fun s : Nat => s) (some cmpFirstIsOne) 1 2).2 = [(2, 1)]
    ∧ (hookGateTr (fun s : Nat => s) (some cmpFirstIsOne) 1 2).2 ≠ [(1, 2)]
    ∧ (hookGateTr (fun s : Nat => s) (some cmpFirstIsOne) 1 2).1 = .ok false
    ∧ (hookGateSpecTr (fun s : Nat => s) (some cmpFirstIsOne) 1 2).1
        = .ok true := by
  refine ⟨rfl, ?_, rfl, rfl⟩
  intro h
  rw [show (hookGateTr (fun s : Nat => s) (some cmpFirstIsOne) 1 2).2
    = [(2, 1)] from rfl] at h
  exact absurd h (by decide)

/-- C6 (amended): in the synchronizer's change gate the previous and
current derived values are first compared by reference; when they are
equal the change is suppressed without invoking the caller's rule (and
with no rule supplied, reference inequality alone decides); only when they
differ is the caller's rule evaluated, a binary comparator receiving the
arguments in the order `(current, previous)`, `true` meaning "treat as
unchanged, suppress notification". -/
theorem hook_gate_short_circuit_and_order {σ R ε H : Type} [DecidableEq R]
    [DecidableEq H] (selector : σ → R) (f : Filter R ε H) (ps cs : σ) :
    (selector ps = selector cs →
      hookGateTr selector (some f) ps cs = (.ok true, []))
    ∧ (selector ps ≠ selector cs → ∀ b : Bool,
      f (selector cs) (selector ps) = .ok (.bool b) →
      hookGateTr selector (some f) ps cs
        = (.ok b, [(selector cs, selector ps)]))
    ∧ (hookGateTr selector (none : Option (Filter R ε H)) ps cs
        = (.ok (decide (selector ps = selector cs)), [])) := by
  refine ⟨?_, ?_, ?_⟩
  · intro h
    simp [hookGateTr, h]
  · intro hne b hfb
    simp [hookGateTr, hne, areResultsEqualTr, hfb]
  · by_cases h : selector ps = selector cs
    · simp [hookGateTr, h]
    · simp [hookGateTr, h]

theorem hook_gate_short_circuit_and_order_witness :
    hookGateTr (fun s : Nat => s) (some cmpFirstIsOne) 1 1 = (.ok true, [])
    ∧ hookGateTr (fun s : Nat => s) (some cmpFirstIsOne) 1 2
        = (.ok false, [(2, 1)]) :=
  ⟨(hook_gate_short_circuit_and_order (fun s => s) cmpFirstIsOne 1 1).1 rfl,
   (hook_gate_short_circuit_and_order (fun s => s) cmpFirstIsOne 1 2).2.1
     (by decide) false rfl⟩

end ReactDeepState
